import Mathlib

/-!
Verification of `giefstat/time_series/util.py`: time-delayed transfer-entropy
peak parsing (`parse_peaks`) and continuous ordinal symbolization
(`continuously_symbolize`).

Embedding conventions:
* real-valued samples are embedded as `ℚ` (exact arithmetic in place of floats);
* numpy fancy indexing `x[i]` for an integer `i` is embedded by `npGet`, which
  wraps negative indices `-len ≤ i < 0` to `len + i` and fails (as numpy does,
  with `IndexError`) outside `[-len, len)`;
* fallible numpy operations are embedded in `Except String`;
* `np.argsort` is embedded as a stable sort of the index list keyed by value
  (quicksort tie order on exactly equal values is unspecified in numpy; all
  results proved here are insensitive to the tie policy);
* the comparison `s > μ + 3σ` of the source (σ a square root) is embedded
  square-free over `ℚ` as `μ < s ∧ 9·var < (s - μ)²`; the significance theorem
  relates this to the literal `μ + 3·√var < s` over `ℝ`.
-/

/-! ### Generic list machinery -/

/-- Insert `a` into `l` before the first element `b` with `¬ le a b` false,
i.e. standard insertion step of insertion sort with a boolean key. -/
def aInsert (le : ℕ → ℕ → Bool) (a : ℕ) : List ℕ → List ℕ
  | [] => [a]
  | b :: t => if le a b then a :: b :: t else b :: aInsert le a t

/-- Insertion sort with a boolean comparison; used to embed sorting of index
lists (argsort and peak ordering). -/
def aSort (le : ℕ → ℕ → Bool) : List ℕ → List ℕ
  | [] => []
  | a :: t => aInsert le a (aSort le t)

/-- Sequential `Except`-valued map, the embedding of a Python loop or numpy
vectorised operation in which any element failure aborts the whole call. -/
def mapE (f : α → Except String β) : List α → Except String (List β)
  | [] => Except.ok []
  | a :: t =>
    match f a, mapE f t with
    | Except.ok b, Except.ok bs => Except.ok (b :: bs)
    | Except.error e, _ => Except.error e
    | Except.ok _, Except.error e => Except.error e

/-! ### Permutation dictionary (itertools.permutations order) -/

/-- All ways to remove one element of `l`: entry `i` is
`(l[i], l with position i removed)`, in position order.  This is the selection
step of `itertools.permutations`. -/
def removals : List ℕ → List (ℕ × List ℕ)
  | [] => []
  | a :: t => (a, t) :: (removals t).map (fun br => (br.1, a :: br.2))

/-- Permutations of `l` in the emission order of `itertools.permutations`
(for a sorted input: lexicographic).  The first argument is fuel, always
instantiated with `l.length`; embeds line 100 of the source
(`patterns = list(permutations(np.arange(m) + 1))`). -/
def itPerms : ℕ → List ℕ → List (List ℕ)
  | 0, _ => [[]]
  | n + 1, l => (removals l).flatMap (fun ar => (itPerms n ar.2).map (fun q => ar.1 :: q))

/-! ### Symbolizer: embedding of `_build_embed_series` and
`continuously_symbolize` (source lines 65-115) -/

/-- numpy integer indexing into a 1-D array: negative indices in
`[-len, 0)` wrap to the end, anything else out of `[-len, len)` is an
`IndexError`. -/
def npGet (x : List ℚ) (i : ℤ) : Except String ℚ :=
  if 0 ≤ i then
    if i < (x.length : ℤ) then Except.ok (x.getD i.toNat 0)
    else Except.error "IndexError: index out of bounds"
  else
    if -(x.length : ℤ) ≤ i then Except.ok (x.getD ((x.length : ℤ) + i).toNat 0)
    else Except.error "IndexError: index out of bounds"

/-- `np.arange(lo, hi)` for integer bounds. -/
def npArange (lo hi : ℤ) : List ℤ :=
  (List.range (hi - lo).toNat).map (fun k : ℕ => lo + (k : ℤ))

/-- Source line 104: `idxs = np.arange((m - 1) * max(tau_x, tau_y), len(x))`.
The lower bound is computed in `ℤ`, as in Python, so that `m = 0` would give a
negative start. -/
def valid_idxs (xlen m tau_x tau_y : ℕ) : List ℤ :=
  npArange (((m : ℤ) - 1) * ((max tau_x tau_y : ℕ) : ℤ)) (xlen : ℤ)

/-- The integer indices read for one embedding row, mirroring the loop of
`_build_embed_series` (source lines 77-80): start from column `x[idx]` and
prepend `x[idx - i*tau]` for `i = 1, …, m-1`. -/
def embed_cols (m tau : ℕ) (idx : ℤ) : List ℤ :=
  (List.range (m - 1)).foldl
    (fun (acc : List ℤ) (k : ℕ) => (idx - ((k : ℤ) + 1) * (tau : ℤ)) :: acc) [idx]

/-- One row of the embedding matrix `X_embed` of `_build_embed_series`. -/
def buildRow (x : List ℚ) (m tau : ℕ) (idx : ℤ) : Except String (List ℚ) :=
  mapE (npGet x) (embed_cols m tau idx)

/-- Embedding of `_build_embed_series` (source lines 65-82).  The final
`X_embed.reshape(len(X_embed), -1)` raises
`ValueError: cannot reshape array of size 0 into shape (0,newaxis)` when the
index list is empty, because the `-1` dimension of a size-0 array is
underdetermined; this is modelled by the emptiness check. -/
def build_embed_series (x : List ℚ) (idxs : List ℤ) (m tau : ℕ) :
    Except String (List (List ℚ)) :=
  match mapE (buildRow x m tau) idxs with
  | Except.error e => Except.error e
  | Except.ok rows =>
    if rows.isEmpty then
      Except.error "ValueError: cannot reshape array of size 0"
    else Except.ok rows

/-- Boolean key of `np.argsort` on row values, with index tie-break (numpy's
tie order among exactly equal values is unspecified; the stable choice is
taken and no result depends on it). -/
def argsortLe (row : List ℚ) (i j : ℕ) : Bool :=
  decide (row.getD i 0 < row.getD j 0) ||
    (decide (row.getD i 0 = row.getD j 0) && decide (i ≤ j))

/-- `np.argsort` of one row (source lines 109 and 112). -/
def argsort (row : List ℚ) : List ℕ :=
  aSort (argsortLe row) (List.range row.length)

/-- Symbol of one embedding row: `np.argsort(row) + 1` looked up in the
pattern dictionary `{patterns[i]: i}` (source lines 101, 109-113). -/
def patternSymbol (patterns : List (List ℕ)) (row : List ℚ) : ℕ :=
  List.indexOf ((argsort row).map (fun i => i + 1)) patterns

/-- Embedding of `continuously_symbolize` (source lines 85-115). -/
def continuously_symbolize (x y : List ℚ) (m tau_x tau_y : ℕ) :
    Except String (List ℕ × List ℕ) :=
  let patterns := itPerms m ((List.range m).map (fun i => i + 1))
  let idxs := valid_idxs x.length m tau_x tau_y
  match build_embed_series x idxs m tau_x with
  | Except.error e => Except.error e
  | Except.ok xRows =>
    match build_embed_series y idxs m tau_y with
    | Except.error e => Except.error e
    | Except.ok yRows =>
      Except.ok (xRows.map (patternSymbol patterns), yRows.map (patternSymbol patterns))

/-- The intended content of one embedding row: cell `j` holds the sample
`x[idx - (m-1-j)·tau]`, read by plain (non-wraparound) indexing. -/
def rowSpec (x : List ℚ) (m tau : ℕ) (idx : ℤ) : List ℚ :=
  (List.range m).map (fun j => x.getD (idx - ((m - 1 - j : ℕ) : ℤ) * (tau : ℤ)).toNat 0)

/-! ### Peak analyzer: embedding of `parse_peaks` (source lines 10-60) -/

/-- `np.mean` over `ℚ` (division by zero yields `0` in `ℚ`; the code never
takes the mean of an empty list on a reachable path, see `refSample_ne_nil`). -/
def npMean (l : List ℚ) : ℚ := l.sum / l.length

/-- Population variance, i.e. the square of `np.std`. -/
def npVar (l : List ℚ) : ℚ :=
  (l.map (fun v => (v - npMean l) ^ 2)).sum / l.length

/-- Python slice `l[-n:]`: the last `n` elements for `n ≥ 1` (clamped to the
whole list when `n > len(l)`), but the WHOLE list for `n = 0`, because
`-0 == 0` and `l[0:] == l`. -/
def pyLastSlice (l : List ℚ) (n : ℕ) : List ℚ :=
  if n = 0 then l else l.drop (l.length - n)

/-- The background reference sample of source lines 54-55:
`_n = len(td_lags) // 10; _series = np.append(td_te_means[:_n], td_te_means[-_n:])`. -/
def refSample (nlags : ℕ) (means : List ℚ) : List ℚ :=
  means.take (nlags / 10) ++ pyLastSlice means (nlags / 10)

/-- The significance flag of source line 57:
`(td_te_means[idx] > ci_bg_ub) & (td_te_means[idx] > _mean + 3 * _std)`.
The second comparison (whose right side contains the square root
`_std = sqrt(npVar)`) is encoded square-free over `ℚ`; the equivalence with
the literal `μ + 3·√var < s` over `ℝ` is `signifB_iff_specSignif`. -/
def signifB (sample : List ℚ) (s ci : ℚ) : Bool :=
  decide (ci < s) &&
    (decide (npMean sample < s) &&
      decide (9 * npVar sample < (s - npMean sample) ^ 2))

/-- The two-leg significance condition exactly as the spec words it: the peak
strength exceeds the CI upper bound and exceeds `μ + 3σ`, with `μ` the mean
and `σ` the (population) standard deviation of the reference sample, both
taken over `ℝ`. -/
def specSignif (sample : List ℚ) (s ci : ℚ) : Prop :=
  ci < s ∧
    (sample.map (fun v : ℚ => (v : ℝ))).sum / (sample.length : ℝ)
      + 3 * Real.sqrt
          ((sample.map (fun v : ℚ =>
              ((v : ℝ) - (sample.map (fun w : ℚ => (w : ℝ))).sum / (sample.length : ℝ)) ^ 2)).sum
            / (sample.length : ℝ))
      < (s : ℝ)

/-- Modelled from the spec: strict interior local maxima of a sequence, the
candidate set of the external peak-finding capability
(`scipy.signal.find_peaks`, spec section 1 and section 4.1 step 2). -/
def local_maxima (xs : List ℚ) : List ℕ :=
  (List.range xs.length).filter (fun i =>
    decide (0 < i) && decide (i + 1 < xs.length) &&
      decide (xs.getD (i - 1) 0 < xs.getD i 0) &&
      decide (xs.getD (i + 1) 0 < xs.getD i 0))

/-- Modelled from the spec (and the source docstring, line 22): the lowest
value within the `wlen`-wide window centred at `i`, clamped to the signal. -/
def window_min (xs : List ℚ) (wlen : ℕ) (i : ℕ) : ℚ :=
  let lo := i - wlen / 2
  let hi := min (i + wlen / 2) (xs.length - 1)
  ((List.range' lo (hi + 1 - lo)).map (fun j => xs.getD j 0)).foldl min (xs.getD i 0)

/-- Modelled from the spec: prominence of peak `i`, "the degree by which it
exceeds the lowest value within the `wlen` range" (source docstring line 22). -/
def window_prominence (xs : List ℚ) (wlen : ℕ) (i : ℕ) : ℚ :=
  xs.getD i 0 - window_min xs wlen i

/-- Modelled from the spec: minimum-horizontal-separation pruning of the peak
finder.  Peaks are taken in decreasing order of height and kept only when at
least `dist` samples away from every peak already kept; the survivors are
returned in ascending index order. -/
def select_by_distance (xs : List ℚ) (peaks : List ℕ) (dist : ℕ) : List ℕ :=
  let byH := aSort (fun i j => decide (xs.getD j 0 ≤ xs.getD i 0)) peaks
  let kept := byH.foldl
    (fun acc i =>
      if acc.all (fun j => decide (dist ≤ ((i : ℤ) - (j : ℤ)).natAbs)) then acc ++ [i]
      else acc) []
  aSort (fun i j => decide (i ≤ j)) kept

/-- Modelled from the spec: the external peak-finding capability
(`scipy.signal.find_peaks`): local maxima of height at least `height`,
pruned by minimum distance `dist`, then by minimum prominence `prom`
computed within a window of `wlen` samples (spec sections 1, 4.1 and 6). -/
def find_peaks (xs : List ℚ) (height : ℚ) (dist : ℕ) (prom : ℚ) (wlen : ℕ) : List ℕ :=
  (select_by_distance xs
      ((local_maxima xs).filter (fun i => decide (height ≤ xs.getD i 0))) dist).filter
    (fun i => decide (prom ≤ window_prominence xs wlen i))

/-- The five parallel result collections of `parse_peaks` (source line 60). -/
structure ParsedPeaks where
  peak_idxs : List ℕ
  peak_taus : List ℤ
  peak_strengths : List ℚ
  peak_stds : List ℚ
  peak_signifs : List Bool
  deriving DecidableEq

/-- Embedding of `parse_peaks` (source lines 10-60).  `thres`, `distance` and
`prominence` are the optional keyword arguments (Python `None` defaults on
lines 25-32). -/
def parse_peaks (tau_x : ℕ) (td_lags : List ℤ) (td_te_info : List (ℚ × ℚ))
    (ci_bg_ub : ℚ) (thres : Option ℚ) (distance : Option ℕ) (prominence : Option ℚ) :
    ParsedPeaks :=
  let thres0 := thres.getD ci_bg_ub
  let distance0 := distance.getD (2 * tau_x)
  let prominence0 := prominence.getD (1 / 100)
  let td_te_means := td_te_info.map (fun p => p.1)
  let td_te_stds := td_te_info.map (fun p => p.2)
  let peak_idxs := find_peaks td_te_means thres0 distance0 prominence0
    (max 2 (td_lags.length / 2))
  if peak_idxs.isEmpty then
    ⟨peak_idxs, [], [], [], []⟩
  else
    ⟨peak_idxs,
     peak_idxs.map (fun p => td_lags.getD p 0),
     peak_idxs.map (fun p => td_te_means.getD p 0),
     peak_idxs.map (fun p => td_te_stds.getD p 0),
     peak_idxs.map (fun idx =>
       signifB (refSample td_lags.length td_te_means) (td_te_means.getD idx 0) ci_bg_ub)⟩

/-- Concrete input for exercising the significance test: a 12-lag grid with a
single sharp peak at index 5. -/
def c1_lags : List ℤ := [0, 1, 2, 3, 4, 5, 6, 7, 8, 9, 10, 11]

/-- TE statistics over `c1_lags`: flat background `0.1` with spike `0.9`. -/
def c1_info : List (ℚ × ℚ) :=
  [(1/10, 1/20), (1/10, 1/20), (1/10, 1/20), (1/10, 1/20), (1/10, 1/20), (9/10, 1/20),
   (1/10, 1/20), (1/10, 1/20), (1/10, 1/20), (1/10, 1/20), (1/10, 1/20), (1/10, 1/20)]

theorem aInsert_perm (le : ℕ → ℕ → Bool) (a : ℕ) :
    ∀ l : List ℕ, (aInsert le a l).Perm (a :: l) := by
  intro l
  induction l with
  | nil => simp [aInsert]
  | cons b t ih =>
    by_cases h : le a b = true
    · simp [aInsert, h]
    · simp only [aInsert, h]
      rw [if_neg (by simp [h])]
      exact (ih.cons b).trans (List.Perm.swap a b t)

theorem aSort_perm (le : ℕ → ℕ → Bool) : ∀ l : List ℕ, (aSort le l).Perm l := by
  intro l
  induction l with
  | nil => simp [aSort]
  | cons a t ih => exact (aInsert_perm le a (aSort le t)).trans (ih.cons a)

theorem mapE_eq_ok (f : α → Except String β) (g : α → β) :
    ∀ l : List α, (∀ a ∈ l, f a = Except.ok (g a)) →
      mapE f l = Except.ok (l.map g) := by
  intro l
  induction l with
  | nil => intro _; rfl
  | cons a t ih =>
    intro h
    have ha := h a (by simp)
    have ht := ih (fun b hb => h b (by simp [hb]))
    simp [mapE, ha, ht]

theorem foldl_prepend (g : ℕ → ℤ) :
    ∀ (l : List ℕ) (init : List ℤ),
      l.foldl (fun acc k => g k :: acc) init = (l.map g).reverse ++ init := by
  intro l
  induction l with
  | nil => intro init; simp
  | cons a t ih => intro init; simp [List.foldl_cons, ih]

theorem range_reverse_map (f : ℕ → α) :
    ∀ m : ℕ, ((List.range m).map f).reverse
      = (List.range m).map (fun j => f (m - 1 - j)) := by
  intro m
  induction m with
  | zero => simp
  | succ m ih =>
    have hL : ((List.range (m + 1)).map f).reverse
        = f m :: ((List.range m).map f).reverse := by
      rw [List.range_succ, List.map_append]
      simp
    have hR : (List.range (m + 1)).map (fun j => f (m + 1 - 1 - j))
        = f m :: (List.range m).map (fun j => f (m - 1 - j)) := by
      rw [List.range_succ_eq_map, List.map_cons, List.map_map]
      simp only [Nat.add_sub_cancel, Nat.sub_zero, Function.comp_def]
      congr 1
      apply List.map_congr_left
      intro j hj
      congr 1
      omega
    rw [hL, hR, ih]

theorem map_sum_const {α : Type} (L : List α) (f : α → ℕ) (c : ℕ)
    (h : ∀ a ∈ L, f a = c) : (L.map f).sum = L.length * c := by
  induction L with
  | nil => simp
  | cons a t ih =>
    simp only [List.map_cons, List.sum_cons, List.length_cons]
    rw [h a (by simp), ih (fun b hb => h b (by simp [hb]))]
    ring

theorem getD_map_of_lt {α β : Type} (f : α → β) (d : β) (e : α) :
    ∀ (l : List α) (k : ℕ), k < l.length →
      (l.map f).getD k d = f (l.getD k e) := by
  intro l
  induction l with
  | nil => intro k hk; simp at hk
  | cons a t ih =>
    intro k hk
    cases k with
    | zero => simp
    | succ k =>
      simp only [List.map_cons, List.getD_cons_succ]
      exact ih k (by simpa using hk)

theorem removals_length : ∀ l : List ℕ, (removals l).length = l.length := by
  intro l
  induction l with
  | nil => rfl
  | cons a t ih => simp [removals, ih]

theorem removals_snd_length :
    ∀ l : List ℕ, ∀ br ∈ removals l, br.2.length + 1 = l.length := by
  intro l
  induction l with
  | nil => intro br h; simp [removals] at h
  | cons a t ih =>
    intro br h
    simp only [removals, List.mem_cons, List.mem_map] at h
    rcases h with h | ⟨cr, hcr, rfl⟩
    · subst h; simp
    · have := ih cr hcr
      simp only [List.length_cons]
      omega

theorem mem_removals_of_mem :
    ∀ (l : List ℕ) (a : ℕ), a ∈ l → (a, l.erase a) ∈ removals l := by
  intro l
  induction l with
  | nil => intro a h; simp at h
  | cons b t ih =>
    intro a h
    by_cases hab : b = a
    · subst hab
      simp [removals, List.erase_cons_head]
    · have hat : a ∈ t := by
        rcases List.mem_cons.mp h with h' | h'
        · exact absurd h'.symm hab
        · exact h'
      have hbeq : (b == a) = false := beq_false_of_ne hab
      rw [List.erase_cons_tail (by simp [hbeq])]
      simp only [removals, List.mem_cons, List.mem_map]
      right
      exact ⟨(a, t.erase a), ih a hat, rfl⟩

theorem mem_itPerms_of_perm :
    ∀ (n : ℕ) (l p : List ℕ), l.length = n → p.Perm l → p ∈ itPerms n l := by
  intro n
  induction n with
  | zero =>
    intro l p hl hp
    have : l = [] := List.length_eq_zero.mp hl
    subst this
    have : p = [] := List.Perm.eq_nil hp
    subst this
    simp [itPerms]
  | succ n ih =>
    intro l p hl hp
    cases p with
    | nil =>
      have := hp.length_eq
      simp [hl] at this
    | cons a t =>
      have hal : a ∈ l := hp.mem_iff.mp (by simp)
      have ht : t.Perm (l.erase a) := (List.cons_perm_iff_perm_erase.mp hp).2
      have hlen : (l.erase a).length = n := by
        rw [List.length_erase_of_mem hal, hl]
        omega
      have hmem : t ∈ itPerms n (l.erase a) := ih (l.erase a) t hlen ht
      simp only [itPerms, List.mem_flatMap]
      exact ⟨(a, l.erase a), mem_removals_of_mem l a hal,
        List.mem_map.mpr ⟨t, hmem, rfl⟩⟩

theorem itPerms_length :
    ∀ (n : ℕ) (l : List ℕ), l.length = n → (itPerms n l).length = n.factorial := by
  intro n
  induction n with
  | zero => intro l hl; simp [itPerms, Nat.factorial]
  | succ n ih =>
    intro l hl
    simp only [itPerms]
    rw [List.length_flatMap]
    have hconst : ∀ br ∈ removals l,
        (List.length ∘ fun ar : ℕ × List ℕ =>
          (itPerms n ar.2).map (fun q => ar.1 :: q)) br = n.factorial := by
      intro br hbr
      simp only [Function.comp, List.length_map]
      exact ih br.2 (by have := removals_snd_length l br hbr; omega)
    rw [map_sum_const (removals l) _ n.factorial hconst, removals_length l, hl,
      Nat.factorial_succ]

/-! ### Machinery: success and content of the symbolization pipeline -/

theorem npGet_ok (x : List ℚ) (i : ℤ) (h0 : 0 ≤ i) (h1 : i < (x.length : ℤ)) :
    npGet x i = Except.ok (x.getD i.toNat 0) := by
  simp [npGet, h0, h1]

theorem mem_npArange {lo hi i : ℤ} : i ∈ npArange lo hi ↔ lo ≤ i ∧ i < hi := by
  simp only [npArange, List.mem_map, List.mem_range]
  constructor
  · rintro ⟨k, hk, rfl⟩
    omega
  · rintro ⟨h1, h2⟩
    exact ⟨(i - lo).toNat, by omega, by omega⟩

theorem embed_cols_eq (m tau : ℕ) (idx : ℤ) (hm : 1 ≤ m) :
    embed_cols m tau idx
      = ((List.range m).map (fun i : ℕ => idx - (i : ℤ) * (tau : ℤ))).reverse := by
  obtain ⟨m', rfl⟩ : ∃ m', m = m' + 1 := ⟨m - 1, by omega⟩
  simp only [embed_cols, Nat.add_sub_cancel]
  rw [foldl_prepend (fun k : ℕ => idx - ((k : ℤ) + 1) * (tau : ℤ))]
  have hR : (List.range (m' + 1)).map (fun i : ℕ => idx - (i : ℤ) * (tau : ℤ))
      = idx :: (List.range m').map (fun k : ℕ => idx - ((k : ℤ) + 1) * (tau : ℤ)) := by
    rw [List.range_succ_eq_map, List.map_cons, List.map_map]
    congr 1
    norm_num
  rw [hR, List.reverse_cons]

theorem rowSpec_length (x : List ℚ) (m tau : ℕ) (idx : ℤ) :
    (rowSpec x m tau idx).length = m := by
  simp [rowSpec]

theorem buildRow_ok (x : List ℚ) (m tau : ℕ) (idx : ℤ) (hm : 1 ≤ m)
    (hb : ∀ i : ℕ, i < m →
      0 ≤ idx - (i : ℤ) * (tau : ℤ) ∧ idx - (i : ℤ) * (tau : ℤ) < (x.length : ℤ)) :
    buildRow x m tau idx = Except.ok (rowSpec x m tau idx) := by
  unfold buildRow
  rw [embed_cols_eq m tau idx hm]
  rw [mapE_eq_ok (npGet x) (fun j : ℤ => x.getD j.toNat 0) _ ?hall]
  case hall =>
    intro j hj
    rw [List.mem_reverse, List.mem_map] at hj
    obtain ⟨i, hi, rfl⟩ := hj
    have hb' := hb i (List.mem_range.mp hi)
    exact npGet_ok x _ hb'.1 hb'.2
  congr 1
  rw [← List.map_reverse, List.map_map, List.map_reverse, range_reverse_map]
  unfold rowSpec
  apply List.map_congr_left
  intro j _
  simp [Function.comp]

theorem build_embed_series_ok (x : List ℚ) (idxs : List ℤ) (m tau : ℕ) (hm : 1 ≤ m)
    (hne : idxs ≠ [])
    (hb : ∀ idx ∈ idxs, ∀ i : ℕ, i < m →
      0 ≤ idx - (i : ℤ) * (tau : ℤ) ∧ idx - (i : ℤ) * (tau : ℤ) < (x.length : ℤ)) :
    build_embed_series x idxs m tau = Except.ok (idxs.map (rowSpec x m tau)) := by
  have h1 : mapE (buildRow x m tau) idxs = Except.ok (idxs.map (rowSpec x m tau)) :=
    mapE_eq_ok _ _ idxs (fun idx hidx => buildRow_ok x m tau idx hm (hb idx hidx))
  have h2 : (idxs.map (rowSpec x m tau)).isEmpty = false := by
    cases idxs with
    | nil => exact absurd rfl hne
    | cons a t => rfl
  unfold build_embed_series
  rw [h1]
  simp [h2]

theorem valid_idx_access_bounds (xlen m tau_x tau_y tau : ℕ) (hm : 1 ≤ m)
    (htau : tau ≤ max tau_x tau_y) :
    ∀ idx ∈ valid_idxs xlen m tau_x tau_y, ∀ i : ℕ, i < m →
      0 ≤ idx - (i : ℤ) * (tau : ℤ) ∧ idx - (i : ℤ) * (tau : ℤ) < (xlen : ℤ) := by
  intro idx hidx i hi
  have hb := mem_npArange.mp hidx
  have h1 : (i : ℤ) * (tau : ℤ) ≤ ((m : ℤ) - 1) * ((max tau_x tau_y : ℕ) : ℤ) := by
    apply mul_le_mul (by omega) (by exact_mod_cast htau) (by positivity) (by omega)
  have h2 : (0 : ℤ) ≤ (i : ℤ) * (tau : ℤ) := by positivity
  exact ⟨by linarith [hb.1], by linarith [hb.2]⟩

theorem valid_idxs_length (xlen m tau_x tau_y : ℕ) (hm : 1 ≤ m) :
    (valid_idxs xlen m tau_x tau_y).length = xlen - (m - 1) * max tau_x tau_y := by
  simp only [valid_idxs, npArange, List.length_map, List.length_range]
  have h1 : ((m - 1 : ℕ) : ℤ) = (m : ℤ) - 1 := by omega
  have hc : ((m : ℤ) - 1) * ((max tau_x tau_y : ℕ) : ℤ)
      = (((m - 1) * max tau_x tau_y : ℕ) : ℤ) := by
    rw [← h1, ← Nat.cast_mul]
  rw [hc]
  omega

theorem patternSymbol_lt_factorial (m : ℕ) (row : List ℚ) (hrow : row.length = m) :
    patternSymbol (itPerms m ((List.range m).map (fun i => i + 1))) row < m.factorial := by
  have hbase : ((List.range m).map (fun i => i + 1)).length = m := by simp
  have h1 : (argsort row).Perm (List.range row.length) := aSort_perm _ _
  rw [hrow] at h1
  have hperm : ((argsort row).map (fun i => i + 1)).Perm
      ((List.range m).map (fun i => i + 1)) := h1.map _
  have hmem := mem_itPerms_of_perm m _ _ hbase hperm
  have hex : ∃ q ∈ itPerms m ((List.range m).map (fun i => i + 1)),
      (q == (argsort row).map (fun i => i + 1)) = true := ⟨_, hmem, by simp⟩
  have hlt := List.findIdx_lt_length_of_exists hex
  rw [itPerms_length m _ hbase] at hlt
  simpa [patternSymbol, List.indexOf] using hlt

/-- Master success lemma: with `m ≥ 1`, a nonempty valid index range, and `y`
at least as long as `x`, `continuously_symbolize` succeeds, and both symbol
sequences arise by symbolizing the intended embedding rows over the common
index set. -/
theorem cs_spec (x y : List ℚ) (m tau_x tau_y : ℕ) (hm : 1 ≤ m)
    (hr : (m - 1) * max tau_x tau_y < x.length) (hxy : x.length ≤ y.length) :
    continuously_symbolize x y m tau_x tau_y
      = Except.ok
          ((valid_idxs x.length m tau_x tau_y).map
            (fun idx => patternSymbol (itPerms m ((List.range m).map (fun i => i + 1)))
              (rowSpec x m tau_x idx)),
           (valid_idxs x.length m tau_x tau_y).map
            (fun idx => patternSymbol (itPerms m ((List.range m).map (fun i => i + 1)))
              (rowSpec y m tau_y idx))) := by
  have hlen := valid_idxs_length x.length m tau_x tau_y hm
  have hne : valid_idxs x.length m tau_x tau_y ≠ [] := by
    intro hnil
    rw [hnil] at hlen
    simp at hlen
    omega
  have hbx := valid_idx_access_bounds x.length m tau_x tau_y tau_x hm (le_max_left _ _)
  have hby : ∀ idx ∈ valid_idxs x.length m tau_x tau_y, ∀ i : ℕ, i < m →
      0 ≤ idx - (i : ℤ) * (tau_y : ℤ) ∧ idx - (i : ℤ) * (tau_y : ℤ) < (y.length : ℤ) := by
    intro idx hidx i hi
    have h := valid_idx_access_bounds x.length m tau_x tau_y tau_y hm
      (le_max_right _ _) idx hidx i hi
    exact ⟨h.1, by omega⟩
  have hex := build_embed_series_ok x _ m tau_x hm hne hbx
  have hey := build_embed_series_ok y _ m tau_y hm hne hby
  simp only [continuously_symbolize]
  rw [hex, hey]
  simp [List.map_map, Function.comp_def]

/-! ### Machinery: the significance test over `ℝ` -/

theorem npVar_nonneg (l : List ℚ) : 0 ≤ npVar l := by
  unfold npVar
  apply div_nonneg
  · apply List.sum_nonneg
    intro a ha
    obtain ⟨v, _, rfl⟩ := List.mem_map.mp ha
    positivity
  · exact_mod_cast Nat.zero_le _

theorem cast_list_sum (l : List ℚ) :
    ((l.sum : ℚ) : ℝ) = (l.map (fun v : ℚ => (v : ℝ))).sum := by
  have h := map_list_sum (Rat.castHom ℝ) l
  simpa [Rat.coe_castHom] using h

theorem npMean_cast (l : List ℚ) :
    ((npMean l : ℚ) : ℝ) = (l.map (fun v : ℚ => (v : ℝ))).sum / (l.length : ℝ) := by
  unfold npMean
  rw [Rat.cast_div, cast_list_sum, Rat.cast_natCast]

theorem npVar_cast (l : List ℚ) :
    ((npVar l : ℚ) : ℝ)
      = (l.map (fun v : ℚ =>
          ((v : ℝ) - (l.map (fun w : ℚ => (w : ℝ))).sum / (l.length : ℝ)) ^ 2)).sum
        / (l.length : ℝ) := by
  unfold npVar
  rw [Rat.cast_div, cast_list_sum, List.map_map, Rat.cast_natCast]
  congr 1
  apply congrArg List.sum
  apply List.map_congr_left
  intro v _
  simp only [Function.comp]
  push_cast
  rw [npMean_cast]

theorem sqrt_nine_mul (v : ℝ) : Real.sqrt (9 * v) = 3 * Real.sqrt v := by
  rw [Real.sqrt_mul (by norm_num : (0 : ℝ) ≤ 9)]
  rw [show (9 : ℝ) = 3 ^ 2 by norm_num, Real.sqrt_sq (by norm_num : (0 : ℝ) ≤ 3)]

theorem lt_mean_add_three_sqrt_iff (mu v s : ℚ) :
    (mu < s ∧ 9 * v < (s - mu) ^ 2) ↔ ((mu : ℝ) + 3 * Real.sqrt (v : ℝ) < (s : ℝ)) := by
  constructor
  · rintro ⟨h1, h2⟩
    have hd : (0 : ℝ) < (s : ℝ) - (mu : ℝ) := by
      have h1' : (mu : ℝ) < (s : ℝ) := by exact_mod_cast h1
      linarith
    have h2' : (9 : ℝ) * (v : ℝ) < ((s : ℝ) - (mu : ℝ)) ^ 2 := by exact_mod_cast h2
    have h3 : Real.sqrt (9 * (v : ℝ)) < (s : ℝ) - (mu : ℝ) := (Real.sqrt_lt' hd).mpr h2'
    rw [sqrt_nine_mul] at h3
    linarith
  · intro hB
    have hs : (0 : ℝ) ≤ 3 * Real.sqrt (v : ℝ) := by positivity
    have hd : (0 : ℝ) < (s : ℝ) - (mu : ℝ) := by linarith
    have h3 : Real.sqrt (9 * (v : ℝ)) < (s : ℝ) - (mu : ℝ) := by
      rw [sqrt_nine_mul]
      linarith
    have h2' : 9 * (v : ℝ) < ((s : ℝ) - (mu : ℝ)) ^ 2 := (Real.sqrt_lt' hd).mp h3
    constructor
    · exact_mod_cast (by linarith : (mu : ℝ) < (s : ℝ))
    · exact_mod_cast h2'

/-- The square-free boolean of source line 57 agrees with the spec's worded
condition (`strength > ciUpperBound` and `strength > μ + 3σ` over `ℝ`). -/
theorem signifB_iff_specSignif (sample : List ℚ) (s ci : ℚ) :
    signifB sample s ci = true ↔ specSignif sample s ci := by
  unfold signifB specSignif
  rw [← npVar_cast, ← npMean_cast]
  simp only [Bool.and_eq_true, decide_eq_true_eq]
  exact and_congr_right fun _ =>
    lt_mean_add_three_sqrt_iff (npMean sample) (npVar sample) s

/-! ### Machinery: `parse_peaks` components and the reference sample -/

theorem parse_peaks_idxs (tau_x : ℕ) (td_lags : List ℤ) (td_te_info : List (ℚ × ℚ))
    (ci_bg_ub : ℚ) (thres : Option ℚ) (distance : Option ℕ) (prominence : Option ℚ) :
    (parse_peaks tau_x td_lags td_te_info ci_bg_ub thres distance prominence).peak_idxs
      = find_peaks (td_te_info.map (fun p => p.1)) (thres.getD ci_bg_ub)
          (distance.getD (2 * tau_x)) (prominence.getD (1 / 100))
          (max 2 (td_lags.length / 2)) := by
  simp only [parse_peaks]
  split <;> rfl

theorem parse_peaks_signifs (tau_x : ℕ) (td_lags : List ℤ) (td_te_info : List (ℚ × ℚ))
    (ci_bg_ub : ℚ) (thres : Option ℚ) (distance : Option ℕ) (prominence : Option ℚ) :
    (parse_peaks tau_x td_lags td_te_info ci_bg_ub thres distance prominence).peak_signifs
      = (find_peaks (td_te_info.map (fun p => p.1)) (thres.getD ci_bg_ub)
          (distance.getD (2 * tau_x)) (prominence.getD (1 / 100))
          (max 2 (td_lags.length / 2))).map
          (fun idx => signifB (refSample td_lags.length (td_te_info.map (fun p => p.1)))
            ((td_te_info.map (fun p => p.1)).getD idx 0) ci_bg_ub) := by
  simp only [parse_peaks]
  split
  · next h =>
    rw [List.isEmpty_iff.mp h]
    rfl
  · rfl

theorem refSample_of_ten_le (nlags : ℕ) (means : List ℚ) (h10 : 10 ≤ nlags) :
    refSample nlags means
      = means.take (nlags / 10) ++ means.drop (means.length - nlags / 10) := by
  unfold refSample pyLastSlice
  rw [if_neg (by omega : ¬ nlags / 10 = 0)]

theorem refSample_of_lt_ten (nlags : ℕ) (means : List ℚ) (h : nlags < 10) :
    refSample nlags means = means := by
  unfold refSample pyLastSlice
  have hn : nlags / 10 = 0 := by omega
  rw [hn]
  simp

theorem refSample_ne_nil (nlags : ℕ) (means : List ℚ) (hlen : means.length = nlags)
    (h1 : 1 ≤ nlags) : refSample nlags means ≠ [] := by
  unfold refSample pyLastSlice
  intro h
  have h2 := List.append_eq_nil.mp h
  by_cases hn : nlags / 10 = 0
  · rw [if_pos hn] at h2
    have : means = [] := h2.2
    rw [this] at hlen
    simp at hlen
    omega
  · have : means = [] := by
      rcases List.take_eq_nil_iff.mp h2.1 with h' | h'
      · exact absurd h' hn
      · exact h'
    rw [this] at hlen
    simp at hlen
    omega

theorem sbd_singleton (xs : List ℚ) (i d : ℕ) :
    select_by_distance xs [i] d = [i] := rfl

theorem parse_peaks_taus (tau_x : ℕ) (td_lags : List ℤ) (td_te_info : List (ℚ × ℚ))
    (ci_bg_ub : ℚ) (thres : Option ℚ) (distance : Option ℕ) (prominence : Option ℚ) :
    (parse_peaks tau_x td_lags td_te_info ci_bg_ub thres distance prominence).peak_taus
      = (find_peaks (td_te_info.map (fun p => p.1)) (thres.getD ci_bg_ub)
          (distance.getD (2 * tau_x)) (prominence.getD (1 / 100))
          (max 2 (td_lags.length / 2))).map (fun p => td_lags.getD p 0) := by
  simp only [parse_peaks]
  split
  · next h =>
    rw [List.isEmpty_iff.mp h]
    rfl
  · rfl

theorem parse_peaks_strengths (tau_x : ℕ) (td_lags : List ℤ) (td_te_info : List (ℚ × ℚ))
    (ci_bg_ub : ℚ) (thres : Option ℚ) (distance : Option ℕ) (prominence : Option ℚ) :
    (parse_peaks tau_x td_lags td_te_info ci_bg_ub thres distance prominence).peak_strengths
      = (find_peaks (td_te_info.map (fun p => p.1)) (thres.getD ci_bg_ub)
          (distance.getD (2 * tau_x)) (prominence.getD (1 / 100))
          (max 2 (td_lags.length / 2))).map
          (fun p => (td_te_info.map (fun q => q.1)).getD p 0) := by
  simp only [parse_peaks]
  split
  · next h =>
    rw [List.isEmpty_iff.mp h]
    rfl
  · rfl

/-! ### Claim theorems -/

/-- C4: at the failing input `x = y = [1,2]`, `m = 3`, `tauX = tauY = 1` the
valid index range is empty (`len(x) = 2 ≤ (3-1)*1`), and instead of returning
two empty sequences the code raises: `X_embed.reshape(len(X_embed), -1)` on
the size-0 selection fails with `ValueError: cannot reshape array of size 0
into shape (0,newaxis)`.  The claim (and spec section 7, "EmptyResult ... never
raise") describes the evident intent; the code is a slip on this edge case. -/
theorem C4_empty_range_raises :
    continuously_symbolize [1, 2] [1, 2] 3 1 1
      = Except.error "ValueError: cannot reshape array of size 0" := rfl

/-- C5 counterexample: for `x = y = [1,3,2,5,4,6,7,9,8,10]`, `m = 2`,
`tauX = tauY = 1`, the code maps an ASCENDING pair to symbol `0` and a
DESCENDING pair to symbol `1`: the first valid pair `(x[0], x[1]) = (1, 3)`
is ascending yet receives symbol `0`.  The produced sequences
`[0,1,0,1,0,0,0,1,0]` differ from the claim's prediction
`[1,0,1,0,1,1,1,0,1]` (descending ↦ 0, ascending ↦ 1) at every position. -/
theorem C5_counterexample :
    continuously_symbolize [1, 3, 2, 5, 4, 6, 7, 9, 8, 10]
        [1, 3, 2, 5, 4, 6, 7, 9, 8, 10] 2 1 1
      = Except.ok ([0, 1, 0, 1, 0, 0, 0, 1, 0], [0, 1, 0, 1, 0, 0, 0, 1, 0])
    ∧ ([0, 1, 0, 1, 0, 0, 0, 1, 0] : List ℕ) ≠ [1, 0, 1, 0, 1, 1, 1, 0, 1] :=
  ⟨rfl, by decide⟩

/-- C5 amended: for `x = y = [1,3,2,5,4,6,7,9,8,10]`, `m = 2`,
`tauX = tauY = 1`, valid indices start at 1 and each embedded pair maps to
symbol `0` when ascending and symbol `1` when descending (the dictionary in
itertools order assigns `(1,2) ↦ 0` and `(2,1) ↦ 1`, and `argsort` of an
ascending pair is `(1,2)`), identically in both returned sequences. -/
theorem C5_amended_pair_symbols :
    continuously_symbolize [1, 3, 2, 5, 4, 6, 7, 9, 8, 10]
        [1, 3, 2, 5, 4, 6, 7, 9, 8, 10] 2 1 1
      = Except.ok
          ((List.range 9).map (fun k =>
            if ([1, 3, 2, 5, 4, 6, 7, 9, 8, 10] : List ℚ).getD k 0
                < ([1, 3, 2, 5, 4, 6, 7, 9, 8, 10] : List ℚ).getD (k + 1) 0
            then 0 else 1),
           (List.range 9).map (fun k =>
            if ([1, 3, 2, 5, 4, 6, 7, 9, 8, 10] : List ℚ).getD k 0
                < ([1, 3, 2, 5, 4, 6, 7, 9, 8, 10] : List ℚ).getD (k + 1) 0
            then 0 else 1)) := by
  rfl

/-- C6 counterexample: `continuously_symbolize` accepts the invalid delay
`tauX = tauY = 0` (the spec demands `tau < 1` be rejected eagerly) and,
instead of reporting a validation error, silently returns a normal result:
every embedding row duplicates one sample and every symbol is 0.  (The
`parse_peaks` side performs no eager validation either: an invalid
`minDistance` is only hit inside the external peak finder.) -/
theorem C6_counterexample :
    continuously_symbolize [1, 2, 3] [1, 2, 3] 2 0 0
      = Except.ok ([0, 0, 0], [0, 0, 0]) := rfl

/-- C6 amended: neither function validates its configuration.  In particular,
for every `m ≥ 1` and nonempty `x` (with `y` at least as long), the call with
the invalid delays `tauX = tauY = 0` succeeds with an ordinary `Ok` result
instead of reporting a validation error — the invalid value is accepted
silently (and the degenerate embedding is computed with it, which is a silent
misuse rather than a clamp). -/
theorem C6_amended_no_validation (x y : List ℚ) (m : ℕ) (hm : 1 ≤ m)
    (hx : x ≠ []) (hxy : x.length ≤ y.length) :
    ∃ r, continuously_symbolize x y m 0 0 = Except.ok r := by
  have hr : (m - 1) * max 0 0 < x.length := by
    simp only [Nat.max_self, Nat.mul_zero]
    exact List.length_pos.mpr hx
  exact ⟨_, cs_spec x y m 0 0 hm hr hxy⟩

theorem C6_amended_witness :
    (1 ≤ 2 ∧ ([1, 2, 3] : List ℚ) ≠ [] ∧ ([1, 2, 3] : List ℚ).length ≤ ([1, 2, 3] : List ℚ).length)
    ∧ ∃ r, continuously_symbolize [1, 2, 3] [1, 2, 3] 2 0 0 = Except.ok r :=
  ⟨⟨by decide, by decide, by decide⟩,
   C6_amended_no_validation [1, 2, 3] [1, 2, 3] 2 (by decide) (by decide) (by decide)⟩

/-- C9: symbolization is deterministic — two calls on componentwise identical
inputs return identical symbol sequences.  The embedding is a pure function
of its arguments, exactly because the source reads no external state: the
pattern dictionary is rebuilt inside each call and nothing else is shared. -/
theorem C9_symbolize_deterministic (x1 y1 : List ℚ) (m1 tx1 ty1 : ℕ)
    (x2 y2 : List ℚ) (m2 tx2 ty2 : ℕ)
    (hx : x1 = x2) (hy : y1 = y2) (hm : m1 = m2) (htx : tx1 = tx2) (hty : ty1 = ty2) :
    continuously_symbolize x1 y1 m1 tx1 ty1 = continuously_symbolize x2 y2 m2 tx2 ty2 := by
  subst hx
  subst hy
  subst hm
  subst htx
  subst hty
  rfl

theorem C9_witness :
    continuously_symbolize [1, 2] [1, 2] 1 1 1 = continuously_symbolize [1, 2] [1, 2] 1 1 1 :=
  C9_symbolize_deterministic [1, 2] [1, 2] 1 1 1 [1, 2] [1, 2] 1 1 1 rfl rfl rfl rfl rfl

/-- C2 counterexample: with `m = 2 ≥ 1`, `tauX = tauY = 1 ≥ 1` and a nonempty
valid index range (`(2-1)*1 = 1 < len(x) = 3`), but `y = [1,2]` shorter than
`x = [1,2,3]`, the code indexes `y` at the valid index `2 ≥ len(y)` and fails
with `IndexError` instead of returning two sequences of length
`len(x) - (m-1)*max(tauX,tauY) = 2`. -/
theorem C2_counterexample :
    continuously_symbolize [1, 2, 3] [1, 2] 2 1 1
      = Except.error "IndexError: index out of bounds" := rfl

/-- C2 amended: for every input with `m ≥ 1`, `tauX ≥ 1`, `tauY ≥ 1`, a
non-empty valid index range, and additionally `len(x) ≤ len(y)` (the counterexample
forces this: the code derives the index range from `len(x)` alone and raises
`IndexError` when `y` is shorter), `continuously_symbolize` returns two
sequences with `len(symbolsX) = len(symbolsY) = len(x) - (m-1)*max(tauX,tauY)`
and every symbol (a natural number, hence `≥ 0`) below `m!`. -/
theorem C2_amended_symbolize_lengths (x y : List ℚ) (m tau_x tau_y : ℕ)
    (hm : 1 ≤ m) (htx : 1 ≤ tau_x) (hty : 1 ≤ tau_y)
    (hr : (m - 1) * max tau_x tau_y < x.length) (hxy : x.length ≤ y.length) :
    ∃ X Y, continuously_symbolize x y m tau_x tau_y = Except.ok (X, Y)
      ∧ X.length = x.length - (m - 1) * max tau_x tau_y
      ∧ Y.length = x.length - (m - 1) * max tau_x tau_y
      ∧ (∀ s ∈ X, s < m.factorial) ∧ (∀ s ∈ Y, s < m.factorial) := by
  refine ⟨_, _, cs_spec x y m tau_x tau_y hm hr hxy, ?_, ?_, ?_, ?_⟩
  · rw [List.length_map, valid_idxs_length x.length m tau_x tau_y hm]
  · rw [List.length_map, valid_idxs_length x.length m tau_x tau_y hm]
  · intro s hs
    obtain ⟨idx, _, rfl⟩ := List.mem_map.mp hs
    exact patternSymbol_lt_factorial m _ (rowSpec_length x m tau_x idx)
  · intro s hs
    obtain ⟨idx, _, rfl⟩ := List.mem_map.mp hs
    exact patternSymbol_lt_factorial m _ (rowSpec_length y m tau_y idx)

theorem C2_amended_witness :
    (1 ≤ 2 ∧ 1 ≤ 1 ∧ (2 - 1) * max 1 1 < ([1, 2, 3] : List ℚ).length
      ∧ ([1, 2, 3] : List ℚ).length ≤ ([1, 2, 3] : List ℚ).length)
    ∧ ∃ X Y, continuously_symbolize [1, 2, 3] [1, 2, 3] 2 1 1 = Except.ok (X, Y)
        ∧ X.length = ([1, 2, 3] : List ℚ).length - (2 - 1) * max 1 1
        ∧ Y.length = ([1, 2, 3] : List ℚ).length - (2 - 1) * max 1 1
        ∧ (∀ s ∈ X, s < Nat.factorial 2) ∧ (∀ s ∈ Y, s < Nat.factorial 2) :=
  ⟨⟨by decide, by decide, by decide, by decide⟩,
   C2_amended_symbolize_lengths [1, 2, 3] [1, 2, 3] 2 1 1
     (by decide) (by decide) (by decide) (by decide) (by decide)⟩

/-- C8 counterexample: for `x = [5,6,7,8]`, `y = [5,6,7]` (differing lengths),
`m = 2`, `tauX = tauY = 1`, the valid index set is derived from `len(x)` only:
it contains `3`, which is NOT `< len(y) = 3`, so the element access into `y`
does not stay in bounds — the call fails with `IndexError` rather than using
only the overlapping range. -/
theorem C8_counterexample :
    (∃ idx ∈ valid_idxs ([5, 6, 7, 8] : List ℚ).length 2 1 1,
      ¬ (idx < (([5, 6, 7] : List ℚ).length : ℤ)))
    ∧ continuously_symbolize [5, 6, 7, 8] [5, 6, 7] 2 1 1
        = Except.error "IndexError: index out of bounds" :=
  ⟨⟨3, by decide, by decide⟩, rfl⟩

/-- C8 amended: every valid index `idx` satisfies
`(m-1)*max(tauX,tauY) ≤ idx` and `idx < len(x)`; the same valid-index set is
used for both series (it is computed once, from `len(x)` alone).  Accesses
into `y` are NOT guaranteed in bounds: they are only when `len(y) ≥ len(x)`
— the code does not truncate to the overlapping range of the two series. -/
theorem C8_amended_valid_idx_bounds (xlen m tau_x tau_y : ℕ) (hm : 1 ≤ m) :
    ∀ idx ∈ valid_idxs xlen m tau_x tau_y,
      (((m - 1) * max tau_x tau_y : ℕ) : ℤ) ≤ idx ∧ idx < (xlen : ℤ) := by
  intro idx h
  have hb := mem_npArange.mp h
  have h1 : ((m - 1 : ℕ) : ℤ) = (m : ℤ) - 1 := by omega
  refine ⟨?_, hb.2⟩
  calc (((m - 1) * max tau_x tau_y : ℕ) : ℤ)
      = ((m : ℤ) - 1) * ((max tau_x tau_y : ℕ) : ℤ) := by rw [Nat.cast_mul, h1]
    _ ≤ idx := hb.1

theorem C8_amended_witness :
    1 ≤ 2 ∧ ((((2 - 1) * max 1 1 : ℕ) : ℤ) ≤ 1 ∧ (1 : ℤ) < ((3 : ℕ) : ℤ)) :=
  ⟨by decide, C8_amended_valid_idx_bounds 3 2 1 1 (by decide) 1 (by decide)⟩

/-- C10 (implicit): for `m ≥ 1`, `tauX ≥ 1`, `tauY ≥ 1`, every valid index
`idx` satisfies `idx - i*tau ≥ 0` for all `i ≤ m-1` with each series' own
delay, so `_build_embed_series` never indexes with a negative value; and the
row built for `x` is exactly the intended one — cell `j` holds the
delay-spaced sample `x[idx - (m-1-j)*tauX]`, read by plain indexing, so no
wraparound to the end of the array occurs. -/
theorem C10_no_negative_indexing (x : List ℚ) (m tau_x tau_y : ℕ)
    (hm : 1 ≤ m) (htx : 1 ≤ tau_x) (hty : 1 ≤ tau_y) :
    ∀ idx ∈ valid_idxs x.length m tau_x tau_y,
      (∀ i : ℕ, i ≤ m - 1 →
        0 ≤ idx - (i : ℤ) * (tau_x : ℤ) ∧ 0 ≤ idx - (i : ℤ) * (tau_y : ℤ))
      ∧ buildRow x m tau_x idx = Except.ok (rowSpec x m tau_x idx) := by
  intro idx hidx
  constructor
  · intro i hi
    have hi' : i < m := by omega
    exact
      ⟨(valid_idx_access_bounds x.length m tau_x tau_y tau_x hm (le_max_left _ _)
          idx hidx i hi').1,
       (valid_idx_access_bounds x.length m tau_x tau_y tau_y hm (le_max_right _ _)
          idx hidx i hi').1⟩
  · exact buildRow_ok x m tau_x idx hm
      (fun i hi => valid_idx_access_bounds x.length m tau_x tau_y tau_x hm
        (le_max_left _ _) idx hidx i hi)

theorem C10_witness :
    (1 ≤ 2 ∧ 1 ≤ 1 ∧ 1 ≤ 1)
    ∧ ((∀ i : ℕ, i ≤ 2 - 1 →
          0 ≤ (1 : ℤ) - (i : ℤ) * ((1 : ℕ) : ℤ) ∧ 0 ≤ (1 : ℤ) - (i : ℤ) * ((1 : ℕ) : ℤ))
        ∧ buildRow [1, 2, 3] 2 1 1 = Except.ok (rowSpec [1, 2, 3] 2 1 1)) :=
  ⟨⟨by decide, by decide, by decide⟩,
   C10_no_negative_indexing [1, 2, 3] 2 1 1 (by decide) (by decide) (by decide)
     1 (by decide)⟩

/-- C3 counterexample: for a six-lag grid (`len < 10`, so `N = 6 // 10 = 0`)
the reference sample used by `parse_peaks`'s significance test is NOT empty:
in Python `means[-0:]` denotes the WHOLE list (`-0 == 0`), so
`np.append(means[:0], means[-0:])` is the entire mean-TE sequence, of length
6, and its mean and standard deviation are well defined rather than NaN. -/
theorem C3_counterexample :
    refSample ([0, 1, 2, 3, 4, 5] : List ℤ).length
        [1/10, 1/10, 9/10, 2/10, 1/10, 1/10]
      = [1/10, 1/10, 9/10, 2/10, 1/10, 1/10]
    ∧ refSample ([0, 1, 2, 3, 4, 5] : List ℤ).length
        [1/10, 1/10, 9/10, 2/10, 1/10, 1/10] ≠ [] :=
  ⟨rfl, by decide⟩

/-- C3 amended: when `len(lagGrid) < 10`, so that `N = len(lagGrid) // 10 = 0`,
the slice `means[-0:]` is the whole list, hence the reference sample used by
the significance test equals the ENTIRE mean-TE sequence; it is nonempty
(and its mean and standard deviation well defined, with no NaN involved)
whenever the mean sequence is nonempty. -/
theorem C3_amended_refSample_whole (nlags : ℕ) (means : List ℚ) (h : nlags < 10) :
    refSample nlags means = means ∧ (means ≠ [] → refSample nlags means ≠ []) := by
  have he := refSample_of_lt_ten nlags means h
  exact ⟨he, fun hne hc => hne (he.symm.trans hc)⟩

theorem C3_amended_witness :
    (6 : ℕ) < 10
    ∧ (refSample 6 [(1 : ℚ)] = [(1 : ℚ)]
        ∧ ([(1 : ℚ)] ≠ [] → refSample 6 [(1 : ℚ)] ≠ [])) :=
  ⟨by decide, C3_amended_refSample_whole 6 [(1 : ℚ)] (by decide)⟩

/-- C7: for `lagGrid = [0,1,2,3,4,5]`, mean-TE values
`[0.1, 0.1, 0.9, 0.2, 0.1, 0.1]`, arbitrary stds, `ciUpperBound = 0.3`,
default configuration and any positive characteristic time, `parse_peaks`
returns exactly one peak, located at lag 2 with strength 0.9.  The single
interior local maximum (index 2) passes the height bound, the distance
pruning (vacuous for one candidate, whatever `2*tau_x` is) and the
prominence bound. -/
theorem C7_single_peak (tau_x : ℕ) (htau : 1 ≤ tau_x) (s0 s1 s2 s3 s4 s5 : ℚ) :
    (parse_peaks tau_x [0, 1, 2, 3, 4, 5]
        [(1/10, s0), (1/10, s1), (9/10, s2), (2/10, s3), (1/10, s4), (1/10, s5)]
        (3/10) none none none).peak_idxs = [2]
    ∧ (parse_peaks tau_x [0, 1, 2, 3, 4, 5]
        [(1/10, s0), (1/10, s1), (9/10, s2), (2/10, s3), (1/10, s4), (1/10, s5)]
        (3/10) none none none).peak_taus = [2]
    ∧ (parse_peaks tau_x [0, 1, 2, 3, 4, 5]
        [(1/10, s0), (1/10, s1), (9/10, s2), (2/10, s3), (1/10, s4), (1/10, s5)]
        (3/10) none none none).peak_strengths = [9/10] := by
  have hmap : ([(1/10, s0), (1/10, s1), (9/10, s2), (2/10, s3), (1/10, s4), (1/10, s5)]
      : List (ℚ × ℚ)).map (fun p => p.1)
      = [1/10, 1/10, 9/10, 2/10, 1/10, 1/10] := rfl
  have hfp : find_peaks [1/10, 1/10, 9/10, 2/10, 1/10, 1/10]
      ((none : Option ℚ).getD (3/10)) ((none : Option ℕ).getD (2 * tau_x))
      ((none : Option ℚ).getD (1/100))
      (max 2 (([0, 1, 2, 3, 4, 5] : List ℤ).length / 2)) = [2] := by
    show find_peaks [1/10, 1/10, 9/10, 2/10, 1/10, 1/10] (3/10) (2 * tau_x) (1/100) 3 = [2]
    unfold find_peaks
    have hcand : (local_maxima [1/10, 1/10, 9/10, 2/10, 1/10, 1/10]).filter
        (fun i => decide ((3 : ℚ)/10
          ≤ ([1/10, 1/10, 9/10, 2/10, 1/10, 1/10] : List ℚ).getD i 0)) = [2] := by
      with_unfolding_all rfl
    rw [hcand, sbd_singleton]
    with_unfolding_all rfl
  refine ⟨?_, ?_, ?_⟩
  · rw [parse_peaks_idxs, hmap, hfp]
  · rw [parse_peaks_taus, hmap, hfp]
    rfl
  · rw [parse_peaks_strengths, hmap, hfp]
    rfl

theorem C7_witness :
    1 ≤ 1
    ∧ ((parse_peaks 1 [0, 1, 2, 3, 4, 5]
          [(1/10, 0), (1/10, 0), (9/10, 0), (2/10, 0), (1/10, 0), (1/10, 0)]
          (3/10) none none none).peak_idxs = [2]
        ∧ (parse_peaks 1 [0, 1, 2, 3, 4, 5]
            [(1/10, 0), (1/10, 0), (9/10, 0), (2/10, 0), (1/10, 0), (1/10, 0)]
            (3/10) none none none).peak_taus = [2]
        ∧ (parse_peaks 1 [0, 1, 2, 3, 4, 5]
            [(1/10, 0), (1/10, 0), (9/10, 0), (2/10, 0), (1/10, 0), (1/10, 0)]
            (3/10) none none none).peak_strengths = [9/10]) :=
  ⟨le_refl 1, C7_single_peak 1 (le_refl 1) 0 0 0 0 0 0⟩

/-- C1: for every call to `parse_peaks` over a lag grid of length ≥ 10 (so
that the claim's reference sample — the concatenation of the first and last
`N = len(lagGrid) // 10` mean-TE values — is what the code computes and is
nonempty), every returned peak's significance flag is true IF AND ONLY IF the
peak's mean-TE strength exceeds `ci_bg_ub` AND exceeds `μ + 3σ` over `ℝ`,
where `μ` and `σ` are the mean and standard deviation of that reference
sample; the iff captures that neither condition alone suffices.  (For grids
shorter than 10 the code's reference sample is instead the whole mean
sequence — see the C3 theorems.) -/
theorem C1_parse_peaks_signif_iff
    (tau_x : ℕ) (td_lags : List ℤ) (td_te_info : List (ℚ × ℚ)) (ci_bg_ub : ℚ)
    (thres : Option ℚ) (distance : Option ℕ) (prominence : Option ℚ)
    (h10 : 10 ≤ td_lags.length) (k : ℕ)
    (hk : k < (parse_peaks tau_x td_lags td_te_info ci_bg_ub
      thres distance prominence).peak_idxs.length) :
    ((parse_peaks tau_x td_lags td_te_info ci_bg_ub
        thres distance prominence).peak_signifs.getD k false = true)
      ↔ specSignif
          ((td_te_info.map (fun p => p.1)).take (td_lags.length / 10)
            ++ (td_te_info.map (fun p => p.1)).drop
                ((td_te_info.map (fun p => p.1)).length - td_lags.length / 10))
          ((td_te_info.map (fun p => p.1)).getD
            ((parse_peaks tau_x td_lags td_te_info ci_bg_ub
              thres distance prominence).peak_idxs.getD k 0) 0)
          ci_bg_ub := by
  rw [parse_peaks_idxs] at hk
  rw [parse_peaks_signifs, parse_peaks_idxs]
  rw [getD_map_of_lt _ false (0 : ℕ) _ k hk]
  rw [signifB_iff_specSignif, refSample_of_ten_le _ _ h10]

theorem C1_witness :
    (10 ≤ c1_lags.length
      ∧ 0 < (parse_peaks 1 c1_lags c1_info (3/10) none none none).peak_idxs.length)
    ∧ (((parse_peaks 1 c1_lags c1_info (3/10)
          none none none).peak_signifs.getD 0 false = true)
        ↔ specSignif
            ((c1_info.map (fun p => p.1)).take (c1_lags.length / 10)
              ++ (c1_info.map (fun p => p.1)).drop
                  ((c1_info.map (fun p => p.1)).length - c1_lags.length / 10))
            ((c1_info.map (fun p => p.1)).getD
              ((parse_peaks 1 c1_lags c1_info (3/10)
                none none none).peak_idxs.getD 0 0) 0)
            (3/10)) :=
  ⟨⟨by decide, by
      rw [show (parse_peaks 1 c1_lags c1_info (3/10) none none none).peak_idxs = [5]
        from by with_unfolding_all rfl]
      decide⟩,
   C1_parse_peaks_signif_iff 1 c1_lags c1_info (3/10) none none none
     (by decide) 0 (by
      rw [show (parse_peaks 1 c1_lags c1_info (3/10) none none none).peak_idxs = [5]
        from by with_unfolding_all rfl]
      decide)⟩
